import Mathlib

/-!
Shallow embedding of the board state coordinator of the `react-chessboard`
repository (`src/context/chessboard-context.js`): position objects, the
premove queue together with its mutable ref, the animation-timeout state,
and the handlers `handleSetPosition`, `attemptPremove`, `clearPremoves`,
plus the external-position reconciliation effect and the timeout callback
it schedules.
-/

namespace ReactChessboard

/-- A square identifier such as "e4" (a JS object key). -/
abbrev Square := String

/-- A piece identifier such as "wP": colour character followed by type. -/
abbrev Piece := String

/-- A JS position object: a square-to-piece mapping, modelled as an ordered
association list (JS objects preserve insertion order, which matters for
`Object.entries`). -/
abbrev Pos := List (Square × Piece)

/-- JS property read `o[k]` on a position object. -/
def objGet (o : Pos) (k : String) : Option Piece :=
  (o.find? (fun e => e.1 == k)).map (fun e => e.2)

/-- JS `delete o[k]` on a position object. -/
def objDelete (o : Pos) (k : String) : Pos :=
  o.filter (fun e => e.1 != k)

/-- JS assignment `o[k] = v`: replaces the value of an existing key in
place, otherwise appends the new key at the end. -/
def objSet : Pos → String → Piece → Pos
  | [], k, v => [(k, v)]
  | e :: rest, k, v => if e.1 = k then (k, v) :: rest else e :: objSet rest k v

/-- JS `piece[0]`: the first character of a piece string, `undefined`
(here `none`) when the string is empty. -/
def pieceColour (p : Piece) : Option Char := p.data.head?

/-- The string key that the JS assignment `o[targetSq] = piece` actually
writes when `targetSq` may be `undefined`: an `undefined` target coerces to
the property name "undefined". -/
def jsKey : Option Square → String
  | none => "undefined"
  | some sq => sq

/-- JS truthiness test `!targetSq` on the target square: `undefined` and
the empty string are falsy. -/
def jsFalsy : Option Square → Bool
  | none => true
  | some sq => sq == ""

/-- The file letters of the board, from `consts.js` (`COLUMNS`). -/
def COLUMNS : List Char := "abcdefgh".data

/-- Whether a string names a real square of the 8x8 board: a file letter
followed by a rank digit 1..8. -/
def isBoardSquare (sq : String) : Bool :=
  match sq.data with
  | [c, r] => COLUMNS.contains c && ('1' ≤ r && r ≤ '8')
  | _ => false

/-- The piece types of the back rank, king side to queen side in file
order a..h. -/
def backRank : List Char := ['R', 'N', 'B', 'Q', 'K', 'B', 'N', 'R']

/-- The canonical starting layout as a position object. -/
def startPosition : Pos :=
  (List.zip COLUMNS backRank).map (fun e => (String.mk [e.1, '1'], String.mk ['w', e.2])) ++
  COLUMNS.map (fun c => (String.mk [c, '2'], "wP")) ++
  COLUMNS.map (fun c => (String.mk [c, '7'], "bP")) ++
  (List.zip COLUMNS backRank).map (fun e => (String.mk [e.1, '8'], String.mk ['b', e.2]))

/-- Extensional equality of two position objects: the same occupant on
every key mentioned by either. -/
def posEquiv (a b : Pos) : Bool :=
  (a.map (fun e => e.1) ++ b.map (fun e => e.1)).all (fun k => objGet a k == objGet b k)

/-- Modelled from the spec: `isDifferentFromStart` lives in `src/functions`,
which is not among the provided sources. Per the spec it is an equality
check of the position against the canonical starting layout. -/
def isDifferentFromStart (pos : Pos) : Bool :=
  ! posEquiv pos startPosition

/-- The two halves of a position diff. -/
structure Diff where
  added : List (Square × Piece)
  removed : List (Square × Piece)
deriving Repr, DecidableEq

/-- Modelled from the spec: `getPositionDifferences` lives in
`src/functions`, which is not among the provided sources. Per the spec,
`added` collects the squares whose occupant in the new position is new or
changed, and `removed` collects the squares whose old occupant is absent or
different in the new position. -/
def getPositionDifferences (oldPos newPos : Pos) : Diff :=
  { added := newPos.filter (fun e => objGet oldPos e.1 != some e.2),
    removed := oldPos.filter (fun e => objGet newPos e.1 != some e.2) }

/-- The mover colour the reconciliation effect infers from a diff
(`chessboard-context.js` lines 100-101): the first character of the first
`added` entry's piece when there are at most 2 added entries, `undefined`
otherwise. -/
def newPieceColourOf (differences : Diff) : Option Char :=
  if differences.added.length ≤ 2 then
    differences.added.head?.bind (fun e => pieceColour e.2)
  else none

/-- A queued premove: the arguments of the drop that was deferred. -/
structure Premove where
  sourceSq : Square
  targetSq : Option Square
  piece : Piece
deriving Repr, DecidableEq

/-- A scheduled animation commit: the `setTimeout` callback of the
reconciliation effect, identified by its timeout id and carrying the
position to adopt and the inferred mover colour. -/
structure ScheduledCommit where
  tid : Nat
  newPos : Pos
  colour : Option Char
deriving Repr, DecidableEq

/-- The configuration props the coordinator reads. `onPieceDropArity`
models `onPieceDrop.length`; `onPieceDrop` is the validation callback's
result, treated as an oracle. -/
structure Config where
  arePremovesAllowed : Bool
  expectingAlternateMoves : Bool
  dropOffBoardAction : String
  onPieceDropArity : Nat
  onPieceDrop : Square → Option Square → Piece → Bool

/-- The mutable state of the `ChessboardProvider`: the React state cells,
the premove ref, and the set of still-armed timeouts (at most one in
reachable states) together with a fresh-id counter for `setTimeout`. -/
structure BoardState where
  currentPosition : Pos
  positionDifferences : Diff
  lastPieceColour : Option Char
  premoves : List Premove
  premovesRef : List Premove
  manualDrop : Bool
  previousTimeout : Option Nat
  waitingForAnimation : Bool
  timeouts : List ScheduledCommit
  nextId : Nat
deriving Repr, DecidableEq

/-- The state at mount: the converted `position` prop is current, nothing
queued, no animation pending. Timeout ids start at 1 as in browsers. -/
def initialState (pos : Pos) : BoardState :=
  { currentPosition := pos
    positionDifferences := { added := [], removed := [] }
    lastPieceColour := none
    premoves := []
    premovesRef := []
    manualDrop := false
    previousTimeout := none
    waitingForAnimation := false
    timeouts := []
    nextId := 1 }

/-- An observable call into the consumer's callbacks: an `onPieceDrop`
invocation or a `getPositionObject` notification. -/
inductive ExtCall where
  | dropCb (sourceSq : Square) (targetSq : Option Square) (piece : Piece)
  | posCb (pos : Pos)
deriving Repr, DecidableEq

/-- `clearPremoves` (lines 223-227): reset the mover colour, empty the ref
and the premove state together. -/
def clearPremoves (s : BoardState) : BoardState :=
  { s with lastPieceColour := none, premovesRef := [], premoves := [] }

/-- `attemptPremove` (lines 198-221), called from inside the scheduled
timeout: read the head of the queue through the ref, attempt it through
`onPieceDrop` when its colour is defined, differs from the new mover
colour, and a callback is supplied; pop on success, clear the whole queue
on failure. -/
def attemptPremove (cfg : Config) (newPieceColour : Option Char) (s : BoardState) :
    BoardState × List ExtCall :=
  if s.premovesRef.length = 0 then (s, [])
  else
    match s.premovesRef.head? with
    | none => (s, [])
    | some premove =>
      if (pieceColour premove.piece).isSome ∧ pieceColour premove.piece ≠ newPieceColour ∧
          cfg.onPieceDropArity ≠ 0 then
        let s1 := { s with lastPieceColour := pieceColour premove.piece, manualDrop := true }
        let isValidMove := cfg.onPieceDrop premove.sourceSq premove.targetSq premove.piece
        let calls := [ExtCall.dropCb premove.sourceSq premove.targetSq premove.piece]
        if isValidMove then
          let oldPremoves := s1.premovesRef.tail
          ({ s1 with premovesRef := oldPremoves, premoves := oldPremoves }, calls)
        else
          (clearPremoves s1, calls)
      else (s, [])

/-- `handleSetPosition` (lines 148-196): the drop handler. Early no-op on
a self-drop or a blocked same-colour move; queue as a premove when
premoves are on and it is not this colour's turn or premoves are already
queued; reject while animating; otherwise play live, either delegated to
`onPieceDrop` or applied directly to the position object. -/
def handleSetPosition (cfg : Config) (sourceSq : Square) (targetSq : Option Square)
    (piece : Piece) (s : BoardState) : BoardState × List ExtCall :=
  if targetSq = some sourceSq ∨
      (cfg.arePremovesAllowed = false ∧ cfg.expectingAlternateMoves = true ∧
        s.lastPieceColour = pieceColour piece) then
    (s, [])
  else if cfg.arePremovesAllowed = true ∧
      (s.lastPieceColour = pieceColour piece ∨ 0 < s.premovesRef.length) then
    let oldPremoves := s.premovesRef ++ [⟨sourceSq, targetSq, piece⟩]
    ({ s with premovesRef := oldPremoves, premoves := oldPremoves }, [])
  else if s.waitingForAnimation = true then
    (s, [])
  else
    let s1 := { s with manualDrop := true, lastPieceColour := pieceColour piece }
    if cfg.onPieceDropArity ≠ 0 then
      let isValidMove := cfg.onPieceDrop sourceSq targetSq piece
      let s2 := if isValidMove then s1 else clearPremoves s1
      (s2, [ExtCall.dropCb sourceSq targetSq piece, ExtCall.posCb s.currentPosition])
    else
      let p1 := if cfg.dropOffBoardAction = "trash" ∧ jsFalsy targetSq = true then
          objDelete s.currentPosition sourceSq
        else s.currentPosition
      let p2 := if sourceSq ≠ "spare" then objDelete p1 sourceSq else p1
      let p3 := objSet p2 (jsKey targetSq) piece
      ({ s1 with currentPosition := p3 }, [ExtCall.posCb p3])

/-- The reconciliation `useEffect` body (lines 96-146), run when the
`position` prop changes (already converted to a position object). While
animating, cancel the pending commit and adopt immediately; after a manual
drop, adopt immediately; otherwise record the diff, update the mover
colour behind the start-layout guard, and schedule an animation commit. -/
def externalUpdate (_cfg : Config) (newPosition : Pos) (s : BoardState) :
    BoardState × List ExtCall :=
  let differences := getPositionDifferences s.currentPosition newPosition
  let newPieceColour := newPieceColourOf differences
  let s1 :=
    if s.waitingForAnimation = true then
      let s' := { s with currentPosition := newPosition, waitingForAnimation := false }
      match s.previousTimeout with
      | some t =>
        if t ≠ 0 then { s' with timeouts := s'.timeouts.filter (fun c => c.tid ≠ t) } else s'
      | none => s'
    else if s.manualDrop = true then
      { s with currentPosition := newPosition, waitingForAnimation := false }
    else
      let s' :=
        if isDifferentFromStart newPosition = true ∧ s.lastPieceColour ≠ none then
          { s with lastPieceColour := newPieceColour }
        else s
      { s' with
        positionDifferences := differences
        waitingForAnimation := true
        timeouts := s'.timeouts ++ [⟨s'.nextId, newPosition, newPieceColour⟩]
        previousTimeout := some s'.nextId
        nextId := s'.nextId + 1 }
  ({ s1 with manualDrop := false }, [ExtCall.posCb newPosition])

/-- The scheduled timeout callback firing (lines 128-132): a no-op when the
timeout id is no longer armed (it was cancelled or already fired);
otherwise adopt the pending position, leave the animating state, and, when
premoves are allowed, attempt the head premove. -/
def fireTimeout (cfg : Config) (tid : Nat) (s : BoardState) : BoardState × List ExtCall :=
  match s.timeouts.find? (fun c => c.tid == tid) with
  | none => (s, [])
  | some c =>
    let s1 := { s with
      timeouts := s.timeouts.filter (fun d => d.tid ≠ tid)
      currentPosition := c.newPos
      waitingForAnimation := false }
    if cfg.arePremovesAllowed = true then attemptPremove cfg c.colour s1 else (s1, [])

/-- The events the coordinator reacts to. -/
inductive Event where
  | external (newPos : Pos)
  | fire (tid : Nat)
  | drop (sourceSq : Square) (targetSq : Option Square) (piece : Piece)
  | clear
deriving Repr

/-- One step of the coordinator: dispatch an event to its handler. -/
def step (cfg : Config) : Event → BoardState → BoardState × List ExtCall
  | Event.external newPos, s => externalUpdate cfg newPos s
  | Event.fire tid, s => fireTimeout cfg tid s
  | Event.drop sourceSq targetSq piece, s => handleSetPosition cfg sourceSq targetSq piece s
  | Event.clear, s => (clearPremoves s, [])

/-- Timeout bookkeeping invariant: ids are positive, every armed timeout is
the one recorded in `previousTimeout`, none is armed outside the animating
state, and at most one is armed at a time. -/
def TimeoutInv (s : BoardState) : Prop :=
  1 ≤ s.nextId ∧
  (∀ c ∈ s.timeouts, s.previousTimeout = some c.tid ∧ 1 ≤ c.tid) ∧
  (s.waitingForAnimation = false → s.timeouts = []) ∧
  s.timeouts.length ≤ 1

instance (s : BoardState) : Decidable (TimeoutInv s) := by
  unfold TimeoutInv; infer_instance

/-- A validation callback that accepts every move. -/
def oracleAccept : Square → Option Square → Piece → Bool := fun _ _ _ => true

/-- A validation callback that rejects every move. -/
def oracleReject : Square → Option Square → Piece → Bool := fun _ _ _ => false

/-- Concrete configuration: no premoves, no callback, direct application. -/
def wCfgDirect : Config :=
  { arePremovesAllowed := false
    expectingAlternateMoves := false
    dropOffBoardAction := "snapback"
    onPieceDropArity := 0
    onPieceDrop := oracleAccept }

/-- Concrete configuration: premoves on, accepting callback supplied. -/
def wCfgPremoves : Config :=
  { arePremovesAllowed := true
    expectingAlternateMoves := false
    dropOffBoardAction := "snapback"
    onPieceDropArity := 1
    onPieceDrop := oracleAccept }

/-- Concrete configuration: premoves off, alternation on, rejecting
callback supplied. -/
def wCfgReject : Config :=
  { arePremovesAllowed := false
    expectingAlternateMoves := true
    dropOffBoardAction := "snapback"
    onPieceDropArity := 1
    onPieceDrop := oracleReject }

/-- Concrete configuration: no premoves, no callback, trash on off-board
drops. -/
def wCfgTrash : Config :=
  { arePremovesAllowed := false
    expectingAlternateMoves := false
    dropOffBoardAction := "trash"
    onPieceDropArity := 0
    onPieceDrop := oracleAccept }

/-- Concrete state mid-animation: one armed commit with id 1. -/
def wStateAnim : BoardState :=
  { initialState [("e2", "wP")] with
    waitingForAnimation := true
    previousTimeout := some 1
    timeouts := [⟨1, [("e4", "wP")], some 'w'⟩]
    nextId := 2 }

/-- Concrete idle state with one queued black premove and white as the
last mover. -/
def wStateQueue : BoardState :=
  { initialState [("e4", "wP"), ("e7", "bP")] with
    lastPieceColour := some 'w'
    premoves := [⟨"e7", some "e5", "bP"⟩]
    premovesRef := [⟨"e7", some "e5", "bP"⟩] }

/-- Concrete idle state with white as the last mover and nothing queued. -/
def wStateIdleW : BoardState :=
  { initialState [("e4", "wP"), ("d5", "bP")] with lastPieceColour := some 'w' }

/-- Concrete incoming position whose diff against the empty position has
three added entries and which differs from the start layout. -/
def cexNewPos : Pos := [("a1", "wQ"), ("a2", "wQ"), ("a3", "wQ")]

/-- Concrete state for the mover-colour counterexample: empty current
position, established white mover colour, idle, no manual drop pending. -/
def cexState : BoardState :=
  { initialState [] with lastPieceColour := some 'w' }

theorem objGet_cons (e : Square × Piece) (rest : Pos) (k : String) :
    objGet (e :: rest) k = if e.1 = k then some e.2 else objGet rest k := by
  by_cases h : e.1 = k
  · simp [objGet, List.find?_cons_of_pos, h]
  · simp only [objGet, if_neg h]
    rw [List.find?_cons_of_neg]
    simpa using h

theorem objGet_objDelete (o : Pos) (k k' : String) :
    objGet (objDelete o k) k' = if k' = k then none else objGet o k' := by
  induction o with
  | nil => simp [objGet, objDelete]
  | cons e rest ih =>
    rw [objDelete, List.filter_cons]
    rw [objDelete] at ih
    by_cases he : e.1 = k
    · simp only [he, bne_self_eq_false, Bool.false_eq_true, if_false]
      rw [ih, objGet_cons]
      by_cases hk : k' = k
      · simp [hk]
      · have hkk : ¬ e.1 = k' := by rw [he]; exact fun h => hk h.symm
        simp [hk, hkk]
    · have hb : (e.1 != k) = true := by simpa using he
      simp only [hb, if_true]
      rw [objGet_cons, objGet_cons, ih]
      by_cases hk : e.1 = k'
      · have hkk : ¬ k' = k := fun h => he (hk.trans h)
        simp [hk, hkk]
      · simp [hk]

theorem objGet_objSet (o : Pos) (k k' : String) (v : Piece) :
    objGet (objSet o k v) k' = if k' = k then some v else objGet o k' := by
  induction o with
  | nil =>
    rw [objSet, objGet_cons]
    by_cases hk : k' = k
    · simp [hk]
    · have hkk : ¬ k = k' := fun h => hk h.symm
      simp [hk, hkk, objGet]
  | cons e rest ih =>
    rw [objSet]
    by_cases he : e.1 = k
    · simp only [he, if_true]
      rw [objGet_cons, objGet_cons]
      by_cases hk : k' = k
      · simp [hk]
      · have h1 : ¬ k = k' := fun h => hk h.symm
        have h2 : ¬ e.1 = k' := by rw [he]; exact h1
        simp [hk, h1, h2]
    · simp only [he, if_false]
      rw [objGet_cons, objGet_cons, ih]
      by_cases hk : e.1 = k'
      · have hkk : ¬ k' = k := fun h => he (hk.trans h)
        simp [hk, hkk]
      · simp [hk]

theorem attemptPremove_sched_fields (cfg : Config) (col : Option Char) (s : BoardState) :
    (attemptPremove cfg col s).1.timeouts = s.timeouts ∧
    (attemptPremove cfg col s).1.waitingForAnimation = s.waitingForAnimation ∧
    (attemptPremove cfg col s).1.previousTimeout = s.previousTimeout ∧
    (attemptPremove cfg col s).1.nextId = s.nextId ∧
    (attemptPremove cfg col s).1.currentPosition = s.currentPosition := by
  unfold attemptPremove clearPremoves
  dsimp only
  repeat' split
  all_goals exact ⟨rfl, rfl, rfl, rfl, rfl⟩

theorem handleSetPosition_sched_fields (cfg : Config) (sourceSq : Square)
    (targetSq : Option Square) (piece : Piece) (s : BoardState) :
    (handleSetPosition cfg sourceSq targetSq piece s).1.timeouts = s.timeouts ∧
    (handleSetPosition cfg sourceSq targetSq piece s).1.waitingForAnimation =
      s.waitingForAnimation ∧
    (handleSetPosition cfg sourceSq targetSq piece s).1.previousTimeout = s.previousTimeout ∧
    (handleSetPosition cfg sourceSq targetSq piece s).1.nextId = s.nextId := by
  unfold handleSetPosition clearPremoves
  dsimp only
  repeat' split
  all_goals exact ⟨rfl, rfl, rfl, rfl⟩

theorem timeoutInv_of_fields (s s' : BoardState) (ht : s'.timeouts = s.timeouts)
    (hw : s'.waitingForAnimation = s.waitingForAnimation)
    (hp : s'.previousTimeout = s.previousTimeout) (hn : s'.nextId = s.nextId)
    (h : TimeoutInv s) : TimeoutInv s' := by
  unfold TimeoutInv at h ⊢
  rw [ht, hw, hp, hn]
  exact h

theorem timeouts_nil_of_previousTimeout_none (s : BoardState)
    (h2 : ∀ c ∈ s.timeouts, s.previousTimeout = some c.tid ∧ 1 ≤ c.tid)
    (hpt : s.previousTimeout = none) : s.timeouts = [] := by
  cases hts : s.timeouts with
  | nil => rfl
  | cons c rest =>
    have := (h2 c (by rw [hts]; exact List.mem_cons_self c rest)).1
    rw [hpt] at this
    cases this

theorem timeouts_filter_previousTimeout (s : BoardState) (t : Nat)
    (h2 : ∀ c ∈ s.timeouts, s.previousTimeout = some c.tid ∧ 1 ≤ c.tid)
    (hpt : s.previousTimeout = some t) :
    s.timeouts.filter (fun c => c.tid ≠ t) = [] := by
  rw [List.filter_eq_nil_iff]
  intro c hc
  have := (h2 c hc).1
  rw [hpt] at this
  simp only [Option.some.injEq] at this
  simp [this]

theorem externalUpdate_while_waiting (cfg : Config) (newPos : Pos) (s : BoardState)
    (hW : s.waitingForAnimation = true)
    (h2 : ∀ c ∈ s.timeouts, s.previousTimeout = some c.tid ∧ 1 ≤ c.tid) :
    externalUpdate cfg newPos s =
      ({ s with
          currentPosition := newPos
          waitingForAnimation := false
          manualDrop := false
          timeouts := [] }, [ExtCall.posCb newPos]) := by
  unfold externalUpdate
  simp only [hW, if_true]
  cases hpt : s.previousTimeout with
  | none =>
    have hts : s.timeouts = [] := timeouts_nil_of_previousTimeout_none s h2 hpt
    dsimp only
    rw [hts]
  | some t =>
    dsimp only
    by_cases h0 : t ≠ 0
    · rw [if_pos h0, timeouts_filter_previousTimeout s t h2 hpt]
    · rw [if_neg h0]
      have ht0 : t = 0 := by
        by_contra hc
        exact h0 hc
      have hts : s.timeouts = [] := by
        cases hts0 : s.timeouts with
        | nil => rfl
        | cons c rest =>
          have hc := h2 c (by rw [hts0]; exact List.mem_cons_self c rest)
          rw [hpt] at hc
          have h1c : t = c.tid := by simpa using hc.1
          have h2c := hc.2
          omega
      rw [hts]

theorem externalUpdate_after_manualDrop (cfg : Config) (newPos : Pos) (s : BoardState)
    (hW : s.waitingForAnimation = false) (hM : s.manualDrop = true) :
    externalUpdate cfg newPos s =
      ({ s with
          currentPosition := newPos
          waitingForAnimation := false
          manualDrop := false }, [ExtCall.posCb newPos]) := by
  unfold externalUpdate
  rw [hW, hM]
  simp

theorem externalUpdate_schedule (cfg : Config) (newPos : Pos) (s : BoardState)
    (hW : s.waitingForAnimation = false) (hM : s.manualDrop = false) :
    externalUpdate cfg newPos s =
      ({ s with
          lastPieceColour :=
            if isDifferentFromStart newPos = true ∧ s.lastPieceColour ≠ none then
              newPieceColourOf (getPositionDifferences s.currentPosition newPos)
            else s.lastPieceColour
          positionDifferences := getPositionDifferences s.currentPosition newPos
          waitingForAnimation := true
          manualDrop := false
          timeouts := s.timeouts ++
            [⟨s.nextId, newPos,
              newPieceColourOf (getPositionDifferences s.currentPosition newPos)⟩]
          previousTimeout := some s.nextId
          nextId := s.nextId + 1 }, [ExtCall.posCb newPos]) := by
  unfold externalUpdate
  rw [hW, hM]
  by_cases hg : isDifferentFromStart newPos = true ∧ s.lastPieceColour ≠ none
  · simp [hg]
  · simp [hg]

theorem step_preserves_timeoutInv (cfg : Config) (e : Event) (s : BoardState)
    (h : TimeoutInv s) : TimeoutInv (step cfg e s).1 := by
  obtain ⟨h1, h2, h3, h4⟩ := h
  cases e with
  | external newPos =>
    show TimeoutInv (externalUpdate cfg newPos s).1
    by_cases hw : s.waitingForAnimation = true
    · rw [externalUpdate_while_waiting cfg newPos s hw h2]
      exact ⟨h1, by simp, fun _ => rfl, by simp⟩
    · have hwf : s.waitingForAnimation = false := by
        cases hv : s.waitingForAnimation
        · rfl
        · exact absurd hv hw
      have hts : s.timeouts = [] := h3 hwf
      by_cases hm : s.manualDrop = true
      · rw [externalUpdate_after_manualDrop cfg newPos s hwf hm]
        exact ⟨h1, by simp [hts], fun _ => by simp [hts], by simp [hts]⟩
      · have hmf : s.manualDrop = false := by
          cases hv : s.manualDrop
          · rfl
          · exact absurd hv hm
        rw [externalUpdate_schedule cfg newPos s hwf hmf]
        refine ⟨by simp, ?_, by simp, by simp [hts]⟩
        intro c hc
        simp only [hts, List.nil_append, List.mem_singleton] at hc
        subst hc
        exact ⟨rfl, h1⟩
  | fire tid =>
    show TimeoutInv (fireTimeout cfg tid s).1
    unfold fireTimeout
    cases hf : s.timeouts.find? (fun c => c.tid == tid) with
    | none => exact ⟨h1, h2, h3, h4⟩
    | some c =>
      have hmem : c ∈ s.timeouts := List.mem_of_find?_eq_some hf
      have hts : s.timeouts.filter (fun d => d.tid ≠ tid) = [] := by
        have hc : c.tid = tid := by simpa using List.find?_some hf
        rw [List.filter_eq_nil_iff]
        intro d hd
        have hdc : d = c := by
          cases hts0 : s.timeouts with
          | nil => rw [hts0] at hd; cases hd
          | cons a rest =>
            have hrest : rest = [] := by
              rw [hts0] at h4
              simpa using h4
            rw [hts0, hrest] at hd hmem
            have hda : d = a := by simpa using hd
            have hca : c = a := by simpa using hmem
            rw [hda, hca]
        rw [hdc, hc]
        simp
      have hInv1 : TimeoutInv { s with
          timeouts := s.timeouts.filter (fun d => d.tid ≠ tid)
          currentPosition := c.newPos
          waitingForAnimation := false } := by
        unfold TimeoutInv
        dsimp only
        rw [hts]
        exact ⟨h1, fun c0 hc0 => absurd hc0 (List.not_mem_nil c0), fun _ => rfl, by simp⟩
      dsimp only
      split
      · obtain ⟨f1, f2, f3, f4, _⟩ := attemptPremove_sched_fields cfg c.colour { s with
          timeouts := s.timeouts.filter (fun d => d.tid ≠ tid)
          currentPosition := c.newPos
          waitingForAnimation := false }
        exact timeoutInv_of_fields _ _ f1 f2 f3 f4 hInv1
      · exact hInv1
  | drop sourceSq targetSq piece =>
    show TimeoutInv (handleSetPosition cfg sourceSq targetSq piece s).1
    obtain ⟨f1, f2, f3, f4⟩ := handleSetPosition_sched_fields cfg sourceSq targetSq piece s
    exact timeoutInv_of_fields _ _ f1 f2 f3 f4 ⟨h1, h2, h3, h4⟩
  | clear =>
    exact timeoutInv_of_fields _ _ rfl rfl rfl rfl ⟨h1, h2, h3, h4⟩

theorem bool_eq_false {b : Bool} (h : ¬ b = true) : b = false := by
  cases b
  · rfl
  · exact absurd rfl h

theorem externalUpdate_waiting_fields (cfg : Config) (newPos : Pos) (t : BoardState)
    (hW : t.waitingForAnimation = true) :
    (externalUpdate cfg newPos t).1.lastPieceColour = t.lastPieceColour ∧
    (externalUpdate cfg newPos t).1.premovesRef = t.premovesRef ∧
    (externalUpdate cfg newPos t).1.premoves = t.premoves := by
  unfold externalUpdate
  dsimp only
  rw [if_pos hW]
  refine ⟨?_, ?_, ?_⟩ <;>
    cases hpt : t.previousTimeout <;>
      first
        | rfl
        | (dsimp only; split <;> rfl)

theorem externalUpdate_queue_fields (cfg : Config) (newPos : Pos) (t : BoardState) :
    (externalUpdate cfg newPos t).1.premovesRef = t.premovesRef ∧
    (externalUpdate cfg newPos t).1.premoves = t.premoves := by
  by_cases hw : t.waitingForAnimation = true
  · exact ⟨(externalUpdate_waiting_fields cfg newPos t hw).2.1,
      (externalUpdate_waiting_fields cfg newPos t hw).2.2⟩
  · have hwf := bool_eq_false hw
    by_cases hm : t.manualDrop = true
    · rw [externalUpdate_after_manualDrop cfg newPos t hwf hm]
      exact ⟨rfl, rfl⟩
    · rw [externalUpdate_schedule cfg newPos t hwf (bool_eq_false hm)]
      exact ⟨rfl, rfl⟩

theorem attemptPremove_calls_spec (cfg : Config) (col : Option Char) (t : BoardState) :
    (attemptPremove cfg col t).2 = [] ∨
    ∃ pm, t.premovesRef.head? = some pm ∧
      (pieceColour pm.piece).isSome = true ∧ pieceColour pm.piece ≠ col ∧
      cfg.onPieceDropArity ≠ 0 ∧
      (attemptPremove cfg col t).2 = [ExtCall.dropCb pm.sourceSq pm.targetSq pm.piece] := by
  unfold attemptPremove
  dsimp only
  by_cases hlen : t.premovesRef.length = 0
  · rw [if_pos hlen]
    exact Or.inl rfl
  · rw [if_neg hlen]
    cases hh : t.premovesRef.head? with
    | none => exact Or.inl rfl
    | some pm =>
      dsimp only
      by_cases hc : (pieceColour pm.piece).isSome ∧ pieceColour pm.piece ≠ col ∧
          cfg.onPieceDropArity ≠ 0
      · rw [if_pos hc]
        refine Or.inr ⟨pm, rfl, hc.1, hc.2.1, hc.2.2, ?_⟩
        split
        · rfl
        · rfl
      · rw [if_neg hc]
        exact Or.inl rfl

theorem attemptPremove_sync (cfg : Config) (col : Option Char) (t : BoardState)
    (h : t.premovesRef = t.premoves) :
    (attemptPremove cfg col t).1.premovesRef = (attemptPremove cfg col t).1.premoves := by
  unfold attemptPremove clearPremoves
  dsimp only
  repeat' split
  all_goals first | exact h | rfl

theorem handleSetPosition_sync (cfg : Config) (sourceSq : Square) (targetSq : Option Square)
    (piece : Piece) (s : BoardState) (h : s.premovesRef = s.premoves) :
    (handleSetPosition cfg sourceSq targetSq piece s).1.premovesRef =
      (handleSetPosition cfg sourceSq targetSq piece s).1.premoves := by
  unfold handleSetPosition clearPremoves
  dsimp only
  repeat' split
  all_goals first | exact h | rfl

/-- C1: while an animation commit is pending, an incoming external position
update cancels the pending commit (no armed timeout remains, and firing any
timeout id afterwards is a no-op, so the abandoned commit can never apply),
adopts the new position as current immediately, and exits the animating
state; moreover every coordinator step preserves the invariant that at most
one delayed commit is outstanding. -/
theorem externalUpdate_while_animating_cancels_commit (cfg : Config) (newPos : Pos)
    (s : BoardState) (hInv : TimeoutInv s) (hW : s.waitingForAnimation = true) :
    (externalUpdate cfg newPos s).1.currentPosition = newPos ∧
    (externalUpdate cfg newPos s).1.waitingForAnimation = false ∧
    (externalUpdate cfg newPos s).1.timeouts = [] ∧
    (∀ tid : Nat, fireTimeout cfg tid (externalUpdate cfg newPos s).1 =
      ((externalUpdate cfg newPos s).1, [])) ∧
    (∀ p : Pos, TimeoutInv (initialState p)) ∧
    (∀ (cfg' : Config) (e : Event) (t : BoardState), TimeoutInv t →
      TimeoutInv (step cfg' e t).1) := by
  obtain ⟨h1, h2, h3, h4⟩ := hInv
  rw [externalUpdate_while_waiting cfg newPos s hW h2]
  exact ⟨rfl, rfl, rfl, fun tid => rfl,
    fun p => ⟨Nat.le_refl 1, fun c hc => absurd hc (List.not_mem_nil c),
      fun _ => rfl, Nat.zero_le 1⟩,
    fun cfg' e t ht => step_preserves_timeoutInv cfg' e t ht⟩

/-- Witness for C1 at a concrete mid-animation state. -/
theorem externalUpdate_while_animating_cancels_commit_witness :
    (externalUpdate wCfgPremoves [("e4", "wP")] wStateAnim).1.currentPosition =
      [("e4", "wP")] ∧
    (externalUpdate wCfgPremoves [("e4", "wP")] wStateAnim).1.timeouts = [] := by
  have h := externalUpdate_while_animating_cancels_commit wCfgPremoves [("e4", "wP")]
    wStateAnim (by decide) (by decide)
  exact ⟨h.1, h.2.2.1⟩

/-- C7: while a programmatic animation commit is pending, a manual drop is
rejected: the current position, mover colour, manual-drop flag, animating
state and armed timeouts are untouched and no consumer callback is invoked
(only the premove queue may change, via the queueing path). -/
theorem drop_blocked_while_animating (cfg : Config) (sourceSq : Square)
    (targetSq : Option Square) (piece : Piece) (s : BoardState)
    (hW : s.waitingForAnimation = true) :
    (handleSetPosition cfg sourceSq targetSq piece s).1.currentPosition =
      s.currentPosition ∧
    (handleSetPosition cfg sourceSq targetSq piece s).1.lastPieceColour =
      s.lastPieceColour ∧
    (handleSetPosition cfg sourceSq targetSq piece s).1.manualDrop = s.manualDrop ∧
    (handleSetPosition cfg sourceSq targetSq piece s).1.waitingForAnimation = true ∧
    (handleSetPosition cfg sourceSq targetSq piece s).1.timeouts = s.timeouts ∧
    (handleSetPosition cfg sourceSq targetSq piece s).2 = [] := by
  unfold handleSetPosition
  dsimp only
  rw [if_pos hW]
  split
  · exact ⟨rfl, rfl, rfl, hW, rfl, rfl⟩
  · split
    · exact ⟨rfl, rfl, rfl, hW, rfl, rfl⟩
    · exact ⟨rfl, rfl, rfl, hW, rfl, rfl⟩

/-- Witness for C7 at a concrete mid-animation state. -/
theorem drop_blocked_while_animating_witness :
    (handleSetPosition wCfgDirect "e2" (some "e4") "wP" wStateAnim).1.currentPosition =
      wStateAnim.currentPosition ∧
    (handleSetPosition wCfgDirect "e2" (some "e4") "wP" wStateAnim).2 = [] := by
  have h := drop_blocked_while_animating wCfgDirect "e2" (some "e4") "wP" wStateAnim rfl
  exact ⟨h.1, h.2.2.2.2.2⟩

/-- C8: a drop on the source square itself, or a same-colour drop while
premoves are disabled and turn alternation is enforced, is a complete
no-op: the whole state is returned unchanged and no callback is invoked. -/
theorem drop_noop_on_self_or_same_colour (cfg : Config) (sourceSq : Square)
    (targetSq : Option Square) (piece : Piece) (s : BoardState)
    (h : targetSq = some sourceSq ∨
      (cfg.arePremovesAllowed = false ∧ cfg.expectingAlternateMoves = true ∧
        s.lastPieceColour = pieceColour piece)) :
    handleSetPosition cfg sourceSq targetSq piece s = (s, []) := by
  unfold handleSetPosition
  rw [if_pos h]

/-- Witness for C8: dropping the white pawn back on its own square. -/
theorem drop_noop_on_self_or_same_colour_witness :
    handleSetPosition wCfgDirect "e2" (some "e2") "wP" wStateIdleW = (wStateIdleW, []) :=
  drop_noop_on_self_or_same_colour wCfgDirect "e2" (some "e2") "wP" wStateIdleW
    (Or.inl rfl)

/-- C9: every queue mutation keeps the mutable ref and the observable queue
state synchronised across every coordinator event, and the premove attempt
made by the deferred commit callback reads the queue through the ref (its
behaviour is unchanged by the snapshot stored in the `premoves` state), so
a commit firing later always sees the latest queue. -/
theorem premovesRef_always_current (cfg : Config) (e : Event) (s : BoardState)
    (h : s.premovesRef = s.premoves) :
    (step cfg e s).1.premovesRef = (step cfg e s).1.premoves ∧
    (∀ (col : Option Char) (t : BoardState) (q : List Premove),
      (attemptPremove cfg col { t with premoves := q }).1.premovesRef =
        (attemptPremove cfg col t).1.premovesRef ∧
      (attemptPremove cfg col { t with premoves := q }).2 =
        (attemptPremove cfg col t).2) := by
  constructor
  · cases e with
    | external newPos =>
      show (externalUpdate cfg newPos s).1.premovesRef =
        (externalUpdate cfg newPos s).1.premoves
      obtain ⟨hq1, hq2⟩ := externalUpdate_queue_fields cfg newPos s
      rw [hq1, hq2]
      exact h
    | fire tid =>
      show (fireTimeout cfg tid s).1.premovesRef = (fireTimeout cfg tid s).1.premoves
      unfold fireTimeout
      cases hf : s.timeouts.find? (fun c => c.tid == tid) with
      | none => exact h
      | some c =>
        dsimp only
        split
        · exact attemptPremove_sync cfg c.colour _ h
        · exact h
    | drop sourceSq targetSq piece =>
      exact handleSetPosition_sync cfg sourceSq targetSq piece s h
    | clear => rfl
  · intro col t q
    unfold attemptPremove
    dsimp only
    by_cases hlen : t.premovesRef.length = 0
    · rw [if_pos hlen, if_pos hlen]
      exact ⟨rfl, rfl⟩
    · rw [if_neg hlen, if_neg hlen]
      cases hh : t.premovesRef.head? with
      | none => exact ⟨rfl, rfl⟩
      | some pm =>
        dsimp only
        by_cases hc : (pieceColour pm.piece).isSome ∧ pieceColour pm.piece ≠ col ∧
            cfg.onPieceDropArity ≠ 0
        · rw [if_pos hc, if_pos hc]
          by_cases hv : cfg.onPieceDrop pm.sourceSq pm.targetSq pm.piece = true
          · rw [if_pos hv, if_pos hv]
            exact ⟨rfl, rfl⟩
          · rw [if_neg hv, if_neg hv]
            exact ⟨rfl, rfl⟩
        · rw [if_neg hc, if_neg hc]
          exact ⟨rfl, rfl⟩

/-- Witness for C9: a queueing drop on a concrete synchronised state. -/
theorem premovesRef_always_current_witness :
    (step wCfgPremoves (Event.drop "d2" (some "d4") "wP") wStateQueue).1.premovesRef =
      (step wCfgPremoves (Event.drop "d2" (some "d4") "wP") wStateQueue).1.premoves :=
  (premovesRef_always_current wCfgPremoves (Event.drop "d2" (some "d4") "wP")
    wStateQueue rfl).1

/-- C4: with premoves enabled and either a same-colour drop or an already
non-empty queue, a drop whose source differs from its target is appended to
the tail of the premove queue (FIFO, ref and state together), the board
position is not mutated, no callback is invoked, and only the head of the
queue is ever attempted by `attemptPremove`. -/
theorem premove_queueing_fifo (cfg : Config) (sourceSq : Square)
    (targetSq : Option Square) (piece : Piece) (s : BoardState)
    (h1 : ¬ targetSq = some sourceSq)
    (hA : cfg.arePremovesAllowed = true)
    (hQ : s.lastPieceColour = pieceColour piece ∨ 0 < s.premovesRef.length) :
    (handleSetPosition cfg sourceSq targetSq piece s).1.premovesRef =
      s.premovesRef ++ [⟨sourceSq, targetSq, piece⟩] ∧
    (handleSetPosition cfg sourceSq targetSq piece s).1.premoves =
      s.premovesRef ++ [⟨sourceSq, targetSq, piece⟩] ∧
    (handleSetPosition cfg sourceSq targetSq piece s).1.currentPosition =
      s.currentPosition ∧
    (handleSetPosition cfg sourceSq targetSq piece s).2 = [] ∧
    (∀ (col : Option Char) (t : BoardState), (attemptPremove cfg col t).2 = [] ∨
      ∃ pm, t.premovesRef.head? = some pm ∧
        (attemptPremove cfg col t).2 =
          [ExtCall.dropCb pm.sourceSq pm.targetSq pm.piece]) := by
  have hno : ¬ (targetSq = some sourceSq ∨
      (cfg.arePremovesAllowed = false ∧ cfg.expectingAlternateMoves = true ∧
        s.lastPieceColour = pieceColour piece)) := by
    intro hor
    cases hor with
    | inl h => exact h1 h
    | inr h =>
      rw [hA] at h
      exact Bool.noConfusion h.1
  unfold handleSetPosition
  dsimp only
  rw [if_neg hno, if_pos ⟨hA, hQ⟩]
  refine ⟨rfl, rfl, rfl, rfl, ?_⟩
  intro col t
  cases attemptPremove_calls_spec cfg col t with
  | inl h => exact Or.inl h
  | inr h =>
    obtain ⟨pm, he, _, _, _, hc⟩ := h
    exact Or.inr ⟨pm, he, hc⟩

/-- Witness for C4: white queues a second move of its own colour. -/
theorem premove_queueing_fifo_witness :
    (handleSetPosition wCfgPremoves "d2" (some "d4") "wP" wStateQueue).1.premovesRef =
      wStateQueue.premovesRef ++ [⟨"d2", some "d4", "wP"⟩] :=
  (premove_queueing_fifo wCfgPremoves "d2" (some "d4") "wP" wStateQueue (by decide)
    rfl (Or.inl (by decide))).1

/-- C3: `attemptPremove` is a no-op on an empty queue; a premove is only
ever attempted when it is the head, its colour is defined and differs from
the new mover colour, and a validation callback exists; on acceptance it
sets the mover colour to the premove's colour, marks manual drop, and pops
exactly the head (the tail survives in order); on rejection it empties the
whole queue. -/
theorem attemptPremove_contract (cfg : Config) (col : Option Char) (s : BoardState) :
    (s.premovesRef = [] → attemptPremove cfg col s = (s, [])) ∧
    ((attemptPremove cfg col s).2 ≠ [] →
      ∃ pm, s.premovesRef.head? = some pm ∧ pieceColour pm.piece ≠ col ∧
        cfg.onPieceDropArity ≠ 0 ∧
        (attemptPremove cfg col s).2 =
          [ExtCall.dropCb pm.sourceSq pm.targetSq pm.piece]) ∧
    (∀ pm c, s.premovesRef.head? = some pm → pieceColour pm.piece = some c →
      some c ≠ col → cfg.onPieceDropArity ≠ 0 →
      (cfg.onPieceDrop pm.sourceSq pm.targetSq pm.piece = true →
        (attemptPremove cfg col s).1.lastPieceColour = some c ∧
        (attemptPremove cfg col s).1.manualDrop = true ∧
        (attemptPremove cfg col s).1.premovesRef = s.premovesRef.tail ∧
        (attemptPremove cfg col s).1.premoves = s.premovesRef.tail) ∧
      (cfg.onPieceDrop pm.sourceSq pm.targetSq pm.piece = false →
        (attemptPremove cfg col s).1.premovesRef = [] ∧
        (attemptPremove cfg col s).1.premoves = [])) := by
  refine ⟨?_, ?_, ?_⟩
  · intro h
    unfold attemptPremove
    rw [h]
    rfl
  · intro hne
    cases attemptPremove_calls_spec cfg col s with
    | inl h => exact absurd h hne
    | inr h =>
      obtain ⟨pm, he, _, hcol, har, hc⟩ := h
      exact ⟨pm, he, hcol, har, hc⟩
  · intro pm c hh hcol hne har
    have hlen : ¬ s.premovesRef.length = 0 := by
      intro h0
      rw [List.length_eq_zero] at h0
      rw [h0] at hh
      exact Option.noConfusion hh
    have hcond : (pieceColour pm.piece).isSome ∧ pieceColour pm.piece ≠ col ∧
        cfg.onPieceDropArity ≠ 0 := by
      refine ⟨by rw [hcol]; rfl, by rw [hcol]; exact hne, har⟩
    constructor
    · intro hv
      unfold attemptPremove
      rw [if_neg hlen, hh]
      dsimp only
      rw [if_pos hcond, if_pos hv]
      exact ⟨hcol, rfl, rfl, rfl⟩
    · intro hv
      unfold attemptPremove
      rw [if_neg hlen, hh]
      dsimp only
      rw [if_pos hcond, if_neg (by rw [hv]; exact fun h => Bool.noConfusion h)]
      exact ⟨rfl, rfl⟩

/-- Witness for C3: the queued black premove is accepted once white has
moved. -/
theorem attemptPremove_contract_witness :
    (attemptPremove wCfgPremoves (some 'w') wStateQueue).1.premovesRef = [] ∧
    (attemptPremove wCfgPremoves (some 'w') wStateQueue).1.lastPieceColour =
      some 'b' := by
  have h := ((attemptPremove_contract wCfgPremoves (some 'w') wStateQueue).2.2
    ⟨"e7", some "e5", "bP"⟩ 'b' (by decide) (by decide) (by decide) (by decide)).1
    (by decide)
  exact ⟨by rw [h.2.2.1]; rfl, h.1⟩

/-- C5: a live delegated drop whose validation callback rejects empties the
premove queue and does not mutate the board position. -/
theorem rejected_drop_clears_queue (cfg : Config) (sourceSq : Square)
    (targetSq : Option Square) (piece : Piece) (s : BoardState)
    (h1 : ¬ targetSq = some sourceSq)
    (h2 : ¬ (cfg.arePremovesAllowed = false ∧ cfg.expectingAlternateMoves = true ∧
      s.lastPieceColour = pieceColour piece))
    (h3 : ¬ (cfg.arePremovesAllowed = true ∧
      (s.lastPieceColour = pieceColour piece ∨ 0 < s.premovesRef.length)))
    (h4 : s.waitingForAnimation = false)
    (h5 : cfg.onPieceDropArity ≠ 0)
    (h6 : cfg.onPieceDrop sourceSq targetSq piece = false) :
    (handleSetPosition cfg sourceSq targetSq piece s).1.premovesRef = [] ∧
    (handleSetPosition cfg sourceSq targetSq piece s).1.premoves = [] ∧
    (handleSetPosition cfg sourceSq targetSq piece s).1.currentPosition =
      s.currentPosition := by
  unfold handleSetPosition
  dsimp only
  rw [if_neg (fun hor => hor.elim h1 h2), if_neg h3,
    if_neg (by rw [h4]; exact fun h => Bool.noConfusion h), if_pos h5,
    if_neg (by rw [h6]; exact fun h => Bool.noConfusion h)]
  exact ⟨rfl, rfl, rfl⟩

/-- Witness for C5 at a concrete rejecting callback. -/
theorem rejected_drop_clears_queue_witness :
    (handleSetPosition wCfgReject "d5" (some "d4") "bP" wStateQueue).1.premoves = [] ∧
    (handleSetPosition wCfgReject "d5" (some "d4") "bP" wStateQueue).1.currentPosition =
      wStateQueue.currentPosition := by
  have h := rejected_drop_clears_queue wCfgReject "d5" (some "d4") "bP" wStateQueue
    (by decide) (by decide) (by decide) rfl (by decide) (by decide)
  exact ⟨h.2.1, h.2.2⟩

/-- C10: after a live delegated drop is rejected, the mover colour is reset
to undefined by the queue-clearing recovery (not the dropped piece's colour
nor the pre-drop value), so the turn-alternation guard cannot block the
next drop of any piece; the manual-drop flag however remains set. -/
theorem rejected_drop_resets_mover_colour (cfg : Config) (sourceSq : Square)
    (targetSq : Option Square) (piece : Piece) (s : BoardState)
    (h1 : ¬ targetSq = some sourceSq)
    (h2 : ¬ (cfg.arePremovesAllowed = false ∧ cfg.expectingAlternateMoves = true ∧
      s.lastPieceColour = pieceColour piece))
    (h3 : ¬ (cfg.arePremovesAllowed = true ∧
      (s.lastPieceColour = pieceColour piece ∨ 0 < s.premovesRef.length)))
    (h4 : s.waitingForAnimation = false)
    (h5 : cfg.onPieceDropArity ≠ 0)
    (h6 : cfg.onPieceDrop sourceSq targetSq piece = false) :
    (handleSetPosition cfg sourceSq targetSq piece s).1.lastPieceColour = none ∧
    (handleSetPosition cfg sourceSq targetSq piece s).1.manualDrop = true ∧
    (∀ piece2 : Piece, (pieceColour piece2).isSome = true →
      ¬ (cfg.arePremovesAllowed = false ∧ cfg.expectingAlternateMoves = true ∧
        (handleSetPosition cfg sourceSq targetSq piece s).1.lastPieceColour =
          pieceColour piece2)) := by
  unfold handleSetPosition
  dsimp only
  rw [if_neg (fun hor => hor.elim h1 h2), if_neg h3,
    if_neg (by rw [h4]; exact fun h => Bool.noConfusion h), if_pos h5,
    if_neg (by rw [h6]; exact fun h => Bool.noConfusion h)]
  refine ⟨rfl, rfl, ?_⟩
  intro piece2 hp2 hcontra
  have hn : (none : Option Char) = pieceColour piece2 := hcontra.2.2
  rw [← hn] at hp2
  exact Bool.noConfusion hp2

/-- Witness for C10 at a concrete rejecting callback. -/
theorem rejected_drop_resets_mover_colour_witness :
    (handleSetPosition wCfgReject "d5" (some "d4") "bP" wStateQueue).1.lastPieceColour =
      none ∧
    (handleSetPosition wCfgReject "d5" (some "d4") "bP" wStateQueue).1.manualDrop =
      true := by
  have h := rejected_drop_resets_mover_colour wCfgReject "d5" (some "d4") "bP"
    wStateQueue (by decide) (by decide) (by decide) rfl (by decide) (by decide)
  exact ⟨h.1, h.2.1⟩

/-- C6: with no validation callback, a live drop updates the position
directly: the occupant of every key is that of the old position, except
that the key actually written by the JS assignment (`targetSq`, or the
property name "undefined" for an off-board drop) holds the dropped piece,
and the source key is emptied whenever the source is not the spare reserve
or the trash-on-off-board path applies; on an off-board drop the written
key is not a board square, so no board square gains the piece. -/
theorem direct_drop_updates_position (cfg : Config) (sourceSq : Square)
    (targetSq : Option Square) (piece : Piece) (s : BoardState)
    (h1 : ¬ targetSq = some sourceSq)
    (h2 : ¬ (cfg.arePremovesAllowed = false ∧ cfg.expectingAlternateMoves = true ∧
      s.lastPieceColour = pieceColour piece))
    (h3 : ¬ (cfg.arePremovesAllowed = true ∧
      (s.lastPieceColour = pieceColour piece ∨ 0 < s.premovesRef.length)))
    (h4 : s.waitingForAnimation = false)
    (h5 : cfg.onPieceDropArity = 0) :
    (∀ k, objGet (handleSetPosition cfg sourceSq targetSq piece s).1.currentPosition k =
      if k = jsKey targetSq then some piece
      else if k = sourceSq ∧ (sourceSq ≠ "spare" ∨
          (cfg.dropOffBoardAction = "trash" ∧ jsFalsy targetSq = true)) then none
      else objGet s.currentPosition k) ∧
    (jsFalsy targetSq = true → isBoardSquare (jsKey targetSq) = false) ∧
    (handleSetPosition cfg sourceSq targetSq piece s).2 =
      [ExtCall.posCb (handleSetPosition cfg sourceSq targetSq piece s).1.currentPosition] := by
  have har : ¬ cfg.onPieceDropArity ≠ 0 := fun h => h h5
  unfold handleSetPosition
  dsimp only
  rw [if_neg (fun hor => hor.elim h1 h2), if_neg h3,
    if_neg (by rw [h4]; exact fun h => Bool.noConfusion h), if_neg har]
  refine ⟨?_, ?_, rfl⟩
  · intro k
    by_cases htr : cfg.dropOffBoardAction = "trash" ∧ jsFalsy targetSq = true
    · rw [if_pos htr]
      by_cases hsp : sourceSq ≠ "spare"
      · rw [if_pos hsp]
        rw [objGet_objSet, objGet_objDelete, objGet_objDelete]
        by_cases hk : k = jsKey targetSq
        · rw [if_pos hk, if_pos hk]
        · rw [if_neg hk, if_neg hk]
          by_cases hks : k = sourceSq
          · rw [if_pos hks, if_pos ⟨hks, Or.inl hsp⟩]
          · rw [if_neg hks, if_neg hks, if_neg (fun hand => hks hand.1)]
      · rw [if_neg hsp]
        rw [objGet_objSet, objGet_objDelete]
        by_cases hk : k = jsKey targetSq
        · rw [if_pos hk, if_pos hk]
        · rw [if_neg hk, if_neg hk]
          by_cases hks : k = sourceSq
          · rw [if_pos hks, if_pos ⟨hks, Or.inr htr⟩]
          · rw [if_neg hks, if_neg (fun hand => hks hand.1)]
    · rw [if_neg htr]
      by_cases hsp : sourceSq ≠ "spare"
      · rw [if_pos hsp]
        rw [objGet_objSet, objGet_objDelete]
        by_cases hk : k = jsKey targetSq
        · rw [if_pos hk, if_pos hk]
        · rw [if_neg hk, if_neg hk]
          by_cases hks : k = sourceSq
          · rw [if_pos hks, if_pos ⟨hks, Or.inl hsp⟩]
          · rw [if_neg hks, if_neg (fun hand => hks hand.1)]
      · rw [if_neg hsp]
        rw [objGet_objSet]
        by_cases hk : k = jsKey targetSq
        · rw [if_pos hk, if_pos hk]
        · rw [if_neg hk, if_neg hk]
          have hcond : ¬ (k = sourceSq ∧ (sourceSq ≠ "spare" ∨
              (cfg.dropOffBoardAction = "trash" ∧ jsFalsy targetSq = true))) := by
            intro hand
            cases hand.2 with
            | inl hl => exact hsp hl
            | inr hr => exact htr hr
          rw [if_neg hcond]
  · intro hfal
    cases targetSq with
    | none => decide
    | some sq =>
      have hsq : sq = "" := by
        simpa [jsFalsy] using hfal
      rw [hsq]
      decide

/-- Witness for C6: an off-board trash drop removes the white pawn from
its square. -/
theorem direct_drop_updates_position_witness :
    objGet (handleSetPosition wCfgTrash "e4" none "wP" wStateIdleW).1.currentPosition
      "e4" = none := by
  have h := (direct_drop_updates_position wCfgTrash "e4" none "wP" wStateIdleW
    (by decide) (by decide) (by decide) rfl rfl).1 "e4"
  rw [h]
  decide

/-- C2 counterexample: an external update whose diff against the current
position has three `added` entries, arriving idle (no animation, no manual
drop) with an established mover colour and a new position different from
the start layout: the stored mover colour is NOT left unchanged — it is
overwritten with `undefined`. -/
theorem moverColour_changed_on_three_added_entries :
    2 < (getPositionDifferences cexState.currentPosition cexNewPos).added.length ∧
    cexState.waitingForAnimation = false ∧
    cexState.manualDrop = false ∧
    isDifferentFromStart cexNewPos = true ∧
    cexState.lastPieceColour = some 'w' ∧
    (externalUpdate wCfgDirect cexNewPos cexState).1.lastPieceColour ≠
      cexState.lastPieceColour := by
  refine ⟨by decide, rfl, rfl, by decide, rfl, by decide⟩

/-- C2 (amended): the mover colour inferred from a diff is the colour of
the first `added` entry when the diff has at most 2 added entries and is
`undefined` when it has more than 2 — so an established stored colour is
then cleared, not left unchanged, whenever the update guard holds; the
stored mover colour changes only when the new position differs from the
canonical start layout and a mover colour was already established, and is
otherwise left as is. -/
theorem moverColour_inference_and_guard (cfg : Config) (newPos : Pos) (s : BoardState)
    (hW : s.waitingForAnimation = false) (hM : s.manualDrop = false) :
    ((getPositionDifferences s.currentPosition newPos).added.length ≤ 2 →
      newPieceColourOf (getPositionDifferences s.currentPosition newPos) =
        (getPositionDifferences s.currentPosition newPos).added.head?.bind
          (fun e => pieceColour e.2)) ∧
    (2 < (getPositionDifferences s.currentPosition newPos).added.length →
      newPieceColourOf (getPositionDifferences s.currentPosition newPos) = none) ∧
    (isDifferentFromStart newPos = true ∧ s.lastPieceColour ≠ none →
      (externalUpdate cfg newPos s).1.lastPieceColour =
        newPieceColourOf (getPositionDifferences s.currentPosition newPos)) ∧
    (¬ (isDifferentFromStart newPos = true ∧ s.lastPieceColour ≠ none) →
      (externalUpdate cfg newPos s).1.lastPieceColour = s.lastPieceColour) ∧
    (∀ t : BoardState, (externalUpdate cfg newPos t).1.lastPieceColour ≠
        t.lastPieceColour →
      isDifferentFromStart newPos = true ∧ t.lastPieceColour ≠ none) := by
  refine ⟨?_, ?_, ?_, ?_, ?_⟩
  · intro hle
    unfold newPieceColourOf
    rw [if_pos hle]
  · intro hgt
    unfold newPieceColourOf
    rw [if_neg (by omega)]
  · intro hg
    rw [externalUpdate_schedule cfg newPos s hW hM]
    exact if_pos hg
  · intro hg
    rw [externalUpdate_schedule cfg newPos s hW hM]
    exact if_neg hg
  · intro t hne
    by_cases htw : t.waitingForAnimation = true
    · exact absurd (externalUpdate_waiting_fields cfg newPos t htw).1 hne
    · have htwf := bool_eq_false htw
      by_cases htm : t.manualDrop = true
      · rw [externalUpdate_after_manualDrop cfg newPos t htwf htm] at hne
        exact absurd rfl hne
      · rw [externalUpdate_schedule cfg newPos t htwf (bool_eq_false htm)] at hne
        by_cases hg : isDifferentFromStart newPos = true ∧ t.lastPieceColour ≠ none
        · exact hg
        · rw [if_neg hg] at hne
          exact absurd rfl hne

/-- Witness for the amended C2 at the three-added-entry update. -/
theorem moverColour_inference_and_guard_witness :
    (externalUpdate wCfgDirect cexNewPos cexState).1.lastPieceColour =
      newPieceColourOf (getPositionDifferences cexState.currentPosition cexNewPos) :=
  (moverColour_inference_and_guard wCfgDirect cexNewPos cexState rfl rfl).2.2.1
    (by decide)

end ReactChessboard
